import Mathlib

/-!
Verification development for the flaky-test detector repository
(files `flaky_test_detector.py` and `testbot.py`).

Python strings are modelled as `List Char`; Python floats arising from
durations, rates and variances are modelled as exact rationals `ℚ`
(the arithmetic involved is +, -, *, /, ** 2 and comparisons only).
ASCII is assumed for the character predicates `\w`, `\s`, `lower()`
(the repository's patterns and keywords are all ASCII).
-/

namespace FlakyDetector

/-- ASCII model of Python's whitespace test used by str.strip and regex \s. -/
def pyIsSpace (c : Char) : Bool :=
  c = ' ' || c = '\t' || c = '\n' || c = '\x0d' || c = '\x0b' || c = '\x0c'

/-- ASCII model of Python's str.lower applied characterwise. -/
def pyToLower (c : Char) : Char := c.toLower

/-- ASCII model of the regex word-character class \w. -/
def isWordChar (c : Char) : Bool :=
  ('a' ≤ c && c ≤ 'z') || ('A' ≤ c && c ≤ 'Z') || ('0' ≤ c && c ≤ '9') || c = '_'

/-- Python str.strip(): drop whitespace from both ends. -/
def pyStrip (l : List Char) : List Char :=
  ((l.dropWhile pyIsSpace).reverse.dropWhile pyIsSpace).reverse

/-- Python str.lower on a whole string. -/
def pyLower (l : List Char) : List Char := l.map pyToLower

/-- Python content.split(c) for a single separator character. -/
def pySplitOn (sep : Char) : List Char → List (List Char)
  | [] => [[]]
  | c :: rest =>
      let r := pySplitOn sep rest
      if c = sep then [] :: r
      else
        match r with
        | [] => [[c]]
        | hd :: tl => (c :: hd) :: tl

/-- Boolean test that the first list is a leading segment of the second. -/
def startsWithStr : List Char → List Char → Bool
  | [], _ => true
  | _ :: _, [] => false
  | a :: as, b :: bs => a = b && startsWithStr as bs

/-- Boolean substring test (the semantics of searching for a literal pattern). -/
def isSubstr (n : List Char) : List Char → Bool
  | [] => n.isEmpty
  | c :: rest => startsWithStr n (c :: rest) || isSubstr n rest

/-- Case-insensitive literal search, the meaning of re.search(literal, s, IGNORECASE). -/
def isSubstrCI (n : List Char) (hay : List Char) : Bool :=
  isSubstr n (pyLower hay)

/-!
A small pattern language covering every regex the repository uses.
Each pattern is a sequence of tokens: a case-sensitive literal, a
case-insensitive literal (IGNORECASE), or a greedy character-class
repetition with lower and optional upper bound (covering \w+, \s+,
\s*, ["'], and the bounded [^"']3-or-more class).  In every pattern of the
repository a greedy class is followed by a token that cannot consume a
character of that class, so maximal-munch matching coincides with
Python's backtracking regex semantics on these patterns.
-/

/-- One token of the pattern language. -/
inductive PatTok where
  | lit (s : List Char)
  | litCI (s : List Char)
  | cls (p : Char → Bool) (lo : Nat) (hi : Option Nat) (cap : Bool)

/-- Length of the longest leading run of characters satisfying p. -/
def runLenU (p : Char → Bool) : List Char → Nat
  | [] => 0
  | c :: rest => if p c then runLenU p rest + 1 else 0

/-- Match a token sequence at the head of the text; return the number of
characters consumed and the list of captured groups. -/
def matchToks : List PatTok → List Char → Option (Nat × List (List Char))
  | [], _ => some (0, [])
  | PatTok.lit s :: ts, text =>
      if text.take s.length = s then
        (matchToks ts (text.drop s.length)).map (fun r => (s.length + r.1, r.2))
      else none
  | PatTok.litCI s :: ts, text =>
      if (text.take s.length).map pyToLower = s then
        (matchToks ts (text.drop s.length)).map (fun r => (s.length + r.1, r.2))
      else none
  | PatTok.cls p lo hi cap :: ts, text =>
      let k := match hi with
        | none => runLenU p text
        | some m => min m (runLenU p text)
      if lo ≤ k then
        (matchToks ts (text.drop k)).map (fun r =>
          (k + r.1, if cap then text.take k :: r.2 else r.2))
      else none

/-- The scanning loop of re.finditer / re.findall: try a match at every
position, and after a match continue just past its end (non-overlapping).
The fuel argument is instantiated with the text length, which suffices
because every step consumes at least one character. -/
def reFindAux (toks : List PatTok) : Nat → List Char → Nat → List (Nat × List (List Char))
  | 0, _, _ => []
  | _ + 1, [], _ => []
  | fuel + 1, c :: rest, i =>
      match matchToks toks (c :: rest) with
      | some (n, caps) =>
          (i, caps) :: reFindAux toks fuel ((c :: rest).drop (max n 1)) (i + max n 1)
      | none => reFindAux toks fuel rest (i + 1)

/-- All matches of a pattern over a text, as (start position, captures). -/
def reFind (toks : List PatTok) (text : List Char) : List (Nat × List (List Char)) :=
  reFindAux toks text.length text 0

/-- The Boolean semantics of re.search. -/
def reSearch (toks : List PatTok) (text : List Char) : Bool :=
  !(reFind toks text).isEmpty

/-! Embedding of FlakyTestDetector._parse_test_output. -/

/-- A captured word run, the meaning of the regex group (\w+). -/
def wordPlusCap : PatTok := PatTok.cls isWordChar 1 none true

/-- An uncaptured word run \w+. -/
def wordPlus : PatTok := PatTok.cls isWordChar 1 none false

/-- An uncaptured whitespace run \s+. -/
def spacePlus : PatTok := PatTok.cls pyIsSpace 1 none false

/-- The three pytest output patterns of _parse_test_output, in order. -/
def pytest_patterns : List (List PatTok) :=
  [ [PatTok.lit "::".toList, wordPlusCap, PatTok.lit "::".toList, wordPlusCap],
    [wordPlusCap, PatTok.lit ".py::".toList, wordPlusCap],
    [wordPlusCap, PatTok.lit ".py::".toList, wordPlusCap, PatTok.lit "::".toList,
      wordPlusCap] ]

/-- The match-tuple formatting of _parse_test_output: a 2-group match becomes
g0::g1, a 3-group match becomes g0::g1::g2, anything else is skipped. -/
def joinGroups : List (List Char) → Option (List Char)
  | [a, b] => some (a ++ "::".toList ++ b)
  | [a, b, c] => some (a ++ "::".toList ++ b ++ "::".toList ++ c)
  | _ => none

/-- The names collected from stdout by the three patterns, in pattern order
then match order (re.findall per pattern, appended). -/
def rawTestNames (stdout : List Char) : List (List Char) :=
  pytest_patterns.flatMap (fun pat =>
    ((reFind pat stdout).map Prod.snd).filterMap joinGroups)

/-- FlakyTestDetector._parse_test_output: collect names from stdout; if the
list is empty fall back to the single generic identifier.  The stderr
argument is accepted but never consulted, as in the source. -/
def parse_test_output (stdout _stderr : List Char) : List (List Char) :=
  let test_names := rawTestNames stdout
  if test_names.isEmpty then ["all_tests".toList] else test_names

/-! Embedding of FlakyTestDetector.run_test_multiple_times. -/

/-- One per-test observation, the dict appended per test name per run. -/
structure RunRecord where
  success : Bool
  duration : ℚ
  run : Nat
  stdout : List Char
  stderr : List Char
deriving DecidableEq

/-- The data of one completed subprocess.run invocation. -/
structure RawRun where
  returncode : Int
  stdout : List Char
  stderr : List Char
  duration : ℚ
deriving DecidableEq

/-- How one of the N runs ends: normal completion, subprocess.TimeoutExpired,
or any other exception (for example a missing executable). -/
inductive RunOutcome where
  | completed (r : RawRun)
  | timedOut
  | errored (msg : List Char)

/-- The session dictionary: test name to its list of run records, in
insertion order (Python dicts preserve insertion order). -/
abbrev Session := List (List Char × List RunRecord)

/-- Dictionary lookup on an association list (first matching key). -/
def lookupA {α : Type} (k : List Char) : List (List Char × α) → Option α
  | [] => none
  | (k', v) :: rest => if k' = k then some v else lookupA k rest

/-- defaultdict(list) append: extend the existing bucket or create one. -/
def appendRecord (results : Session) (name : List Char) (r : RunRecord) : Session :=
  match results with
  | [] => [(name, [r])]
  | (k, v) :: rest =>
      if k = name then (k, v ++ [r]) :: rest
      else (k, v) :: appendRecord rest name r

/-- The record appended to every known test on subprocess.TimeoutExpired:
failed, duration 300 (the hardcoded timeout), empty stdout, sentinel stderr. -/
def timeoutRecord (runIdx : Nat) : RunRecord :=
  ⟨false, 300, runIdx, [], "Test execution timed out".toList⟩

/-- The body of one iteration of the run loop.  On completion, one record per
parsed test name is appended; on timeout, a timeout record is appended to
every test name already present; on any other exception the loop only prints
and records nothing. -/
def stepRun (results : Session) (runIdx : Nat) : RunOutcome → Session
  | RunOutcome.completed r =>
      let success := decide (r.returncode = 0)
      (parse_test_output r.stdout r.stderr).foldl
        (fun acc n => appendRecord acc n ⟨success, r.duration, runIdx, r.stdout, r.stderr⟩)
        results
  | RunOutcome.timedOut =>
      results.map (fun p => (p.1, p.2 ++ [timeoutRecord runIdx]))
  | RunOutcome.errored _ => results

/-- The run loop, with run indices counting from 1. -/
def runTestAux (results : Session) (idx : Nat) : List RunOutcome → Session
  | [] => results
  | o :: rest => runTestAux (stepRun results idx o) (idx + 1) rest

/-- FlakyTestDetector.run_test_multiple_times over a given sequence of run
outcomes (the subprocess behaviour is the environment's input). -/
def run_test_multiple_times (outcomes : List RunOutcome) : Session :=
  runTestAux [] 1 outcomes

/-! Embedding of FlakyTestDetector._calculate_variance and analyze_flakiness. -/

/-- FlakyTestDetector._calculate_variance: 0.0 for fewer than two samples,
otherwise the mean of squared deviations from the mean. -/
def calculate_variance (values : List ℚ) : ℚ :=
  if values.length < 2 then 0
  else
    let mean := values.sum / (values.length : ℚ)
    (values.map (fun x => (x - mean) ^ 2)).sum / (values.length : ℚ)

/-- Modelled from the spec: the population variance of a series, mean of
squared deviations from the mean, dividing by the sample count. -/
def population_variance (values : List ℚ) : ℚ :=
  (values.map (fun x => (x - values.sum / (values.length : ℚ)) ^ 2)).sum
    / (values.length : ℚ)

/-- The per-test verdict dictionary built by analyze_flakiness. -/
structure FlakyEntry where
  flakiness_level : String
  success_rate : ℚ
  total_runs : Nat
  successful_runs : Nat
  failed_runs : Nat
  avg_duration : ℚ
  duration_variance : ℚ
  runs : List RunRecord
deriving DecidableEq

/-- The verdict analyze_flakiness computes for one nonempty run list:
success rate, average duration, variance, the tier string chosen by rate,
and the _PERFORMANCE suffix appended when the duration variance exceeds
half the average duration. -/
def mkFlakyEntry (runs : List RunRecord) : FlakyEntry :=
  let successes := runs.map RunRecord.success
  let durations := runs.map RunRecord.duration
  let success_rate : ℚ := (successes.count true : ℚ) / (successes.length : ℚ)
  let avg_duration : ℚ := durations.sum / (durations.length : ℚ)
  let duration_variance := calculate_variance durations
  let base : String :=
    if success_rate < 1 ∧ 0 < success_rate then "FLAKY"
    else if success_rate = 0 then "FAILING"
    else "STABLE"
  let level : String :=
    base ++ (if duration_variance > avg_duration * (1 / 2) then "_PERFORMANCE" else "")
  ⟨level, success_rate, runs.length, successes.count true,
    successes.length - successes.count true, avg_duration, duration_variance, runs⟩

/-- FlakyTestDetector.analyze_flakiness: skip empty run lists and build
one verdict entry per remaining test name, in order. -/
def analyze_flakiness (results : Session) : List (List Char × FlakyEntry) :=
  results.flatMap (fun entry =>
    if entry.2.isEmpty then [] else [(entry.1, mkFlakyEntry entry.2)])

/-! Embedding of FlakyTestDetector.detect_flaky_patterns (the regex scanner). -/

/-- A configured pattern: the regex source string as stored in the emitted
record, and its token form. -/
structure ScanPat where
  source : List Char
  toks : List PatTok

/-- Shorthand for a pattern whose regex is an escaped literal. -/
def litPat (source : String) (lit : String) : ScanPat :=
  ⟨source.toList, [PatTok.lit lit.toList]⟩

def time_patterns : List ScanPat :=
  [ litPat "time\\.sleep\\(" "time.sleep(",
    litPat "asyncio\\.sleep\\(" "asyncio.sleep(",
    litPat "threading\\.Event\\(\\)\\.wait\\(" "threading.Event().wait(",
    litPat "\\.join\\(timeout=" ".join(timeout=",
    litPat "wait_for\\(" "wait_for(" ]

def random_patterns : List ScanPat :=
  [ litPat "random\\." "random.",
    litPat "numpy\\.random\\." "numpy.random.",
    litPat "uuid\\.uuid4\\(\\)" "uuid.uuid4()",
    litPat "\\.shuffle\\(" ".shuffle(",
    litPat "\\.choice\\(" ".choice(" ]

def external_patterns : List ScanPat :=
  [ litPat "requests\\." "requests.",
    litPat "urllib\\." "urllib.",
    litPat "http\\." "http.",
    litPat "socket\\." "socket.",
    litPat "subprocess\\." "subprocess.",
    litPat "os\\.system\\(" "os.system(",
    litPat "os\\.popen\\(" "os.popen(" ]

def filesystem_patterns : List ScanPat :=
  [ litPat "open\\(" "open(",
    litPat "\\.write\\(" ".write(",
    litPat "\\.read\\(" ".read(",
    litPat "os\\.remove\\(" "os.remove(",
    litPat "os\\.mkdir\\(" "os.mkdir(",
    litPat "shutil\\." "shutil." ]

def global_patterns : List ScanPat :=
  [ ⟨"global\\s+\\w+".toList, [PatTok.lit "global".toList, spacePlus, wordPlus]⟩,
    litPat "os\\.environ\\[" "os.environ[",
    litPat "sys\\.path\\." "sys.path.",
    litPat "__import__\\(" "__import__(" ]

/-- One pattern category: the type tag, the description of its findings, and
its pattern list, in the order the source evaluates them. -/
structure ScanCategory where
  ctype : String
  description : String
  pats : List ScanPat

def flaky_categories : List ScanCategory :=
  [ ⟨"TIME_DEPENDENT", "Test depends on timing which can be unreliable",
      time_patterns⟩,
    ⟨"RANDOM_DATA", "Test uses random data without fixed seed", random_patterns⟩,
    ⟨"EXTERNAL_DEPENDENCY", "Test depends on external resources",
      external_patterns⟩,
    ⟨"FILESYSTEM", "Test performs file system operations", filesystem_patterns⟩,
    ⟨"GLOBAL_STATE", "Test modifies global state", global_patterns⟩ ]

/-- One emitted finding of detect_flaky_patterns. -/
structure PatternIssue where
  ptype : String
  pattern : List Char
  line : Nat
  description : String
deriving DecidableEq

/-- The scan body of detect_flaky_patterns over the file content: for every
category, every pattern, every finditer match, emit a record whose line is
the count of newlines before the match start plus one. -/
def scanFlakyContent (content : List Char) : List PatternIssue :=
  flaky_categories.flatMap (fun cat =>
    cat.pats.flatMap (fun pat =>
      (reFind pat.toks content).map (fun m =>
        ⟨cat.ctype, pat.source, (content.take m.1).count '\n' + 1,
          cat.description⟩)))

/-- FlakyTestDetector.detect_flaky_patterns: the whole body runs inside a
try/except, so an unreadable file (the open call raising) yields the empty
list instead of an exception.  The argument is the readable file content, or
none when reading fails. -/
def detect_flaky_patterns (fileContent : Option (List Char)) : List PatternIssue :=
  match fileContent with
  | none => []
  | some content => scanFlakyContent content

/-! Embedding of the relevant parts of testbot.py. -/

namespace Testbot

/-- The four weak-random regexes of check_weak_random (case-sensitive). -/
def weak_random_patterns : List (List PatTok) :=
  [ [PatTok.lit "Math.random()".toList],
    [PatTok.lit "random.random()".toList],
    [PatTok.lit "new".toList, spacePlus, PatTok.lit "Random()".toList],
    [PatTok.lit "rand()".toList] ]

/-- The security-context keywords searched with re.IGNORECASE. -/
def security_contexts : List (List Char) :=
  ["token", "password", "key", "secret", "encrypt", "decrypt", "auth",
    "login"].map String.toList

/-- Whether any security-context keyword occurs in the content,
case-insensitively (each keyword regex is a plain literal). -/
def has_security_context (content : List Char) : Bool :=
  security_contexts.any (fun k => isSubstrCI k content)

/-- testbot.check_weak_random: without a security context the function
returns False immediately; otherwise it reports whether any weak-random
pattern occurs. -/
def check_weak_random (content : List Char) : Bool :=
  if has_security_context content = false then false
  else weak_random_patterns.any (fun pat => reSearch pat content)

/-- The quote class ["'] of the secret regexes. -/
def quoteChar (c : Char) : Bool := c = '"' || c = '\''

/-- The complementary class of at least three non-quote characters. -/
def nonQuoteChar (c : Char) : Bool := !(c = '"' || c = '\'')

/-- Token form of kw\s*=\s*["'][^"']3-or-more["'] searched with IGNORECASE. -/
def secretAssignToks (kw : String) : List PatTok :=
  [ PatTok.litCI kw.toList,
    PatTok.cls pyIsSpace 0 none false,
    PatTok.lit "=".toList,
    PatTok.cls pyIsSpace 0 none false,
    PatTok.cls quoteChar 1 (some 1) false,
    PatTok.cls nonQuoteChar 3 none false,
    PatTok.cls quoteChar 1 (some 1) false ]

/-- The five secret-assignment regexes of check_hardcoded_secrets. -/
def secret_patterns : List (List PatTok) :=
  [ secretAssignToks "password", secretAssignToks "secret",
    secretAssignToks "api_key", secretAssignToks "private_key",
    secretAssignToks "token" ]

/-- The exclusion markers searched with re.IGNORECASE over the whole file. -/
def exclude_patterns : List (List Char) :=
  ["test_", "example", "sample", "demo", "placeholder"].map String.toList

/-- The is_test_context test of check_hardcoded_secrets: it searches the
whole file content, not the matched line. -/
def isTestContext (content : List Char) : Bool :=
  exclude_patterns.any (fun e => isSubstrCI e content)

/-- testbot.check_hardcoded_secrets: return True on the first secret match
found while the file-wide exclusion test is false. -/
def check_hardcoded_secrets (content : List Char) : Bool :=
  secret_patterns.any (fun pat =>
    (reFind pat content).any (fun _ => !(isTestContext content)))

/-- One finding of testbot.detect_flaky_patterns. -/
structure FlakyIssue where
  line : Nat
  pattern : String
  severity : String
  code : List Char
  message : String
  fix : String
deriving DecidableEq

/-- Python's enumerate(lines, 1). -/
def enumFrom1 : Nat → List (List Char) → List (Nat × List Char)
  | _, [] => []
  | i, l :: rest => (i, l) :: enumFrom1 (i + 1) rest

/-- The body of one iteration of the line loop of
testbot.detect_flaky_patterns: line_stripped is the stripped, lowered line;
the with-test of the RESOURCE_LEAK rule inspects the original, unstripped
line; the DATABASE rule also consults the lowered file path. -/
def lineIssues (file_path : List Char) (i : Nat) (line : List Char) :
    List FlakyIssue :=
  let line_stripped := pyLower (pyStrip line)
  let original_line := pyStrip line
  (if isSubstr "time.sleep(".toList line_stripped then
      [⟨i, "TIME_DEPENDENCY", "HIGH", original_line,
        "Uses time.sleep() - will cause timing-dependent failures",
        "Replace with proper wait conditions or WebDriverWait"⟩]
    else [])
  ++ (if isSubstr "date.now()".toList line_stripped
        || isSubstr "datetime.now()".toList line_stripped then
      [⟨i, "NON_DETERMINISTIC_TIME", "MEDIUM", original_line,
        "Uses current time - may cause timing failures",
        "Use fixed timestamps in tests or mock datetime"⟩]
    else [])
  ++ (if isSubstr "math.random()".toList line_stripped
        || isSubstr "random.random()".toList line_stripped then
      [⟨i, "RANDOM_WITHOUT_SEED", "HIGH", original_line,
        "Uses random values without seeding",
        "Set random seed: random.seed(42) or use fixed test data"⟩]
    else [])
  ++ (if (["requests.get(", "requests.post(", "fetch("].map
          String.toList).any (fun p => isSubstr p line_stripped)
        && (isSubstr "http://".toList line_stripped
            || isSubstr "https://".toList line_stripped) then
      [⟨i, "EXTERNAL_HTTP", "HIGH", original_line,
        "External HTTP request - will fail if service is down",
        "Mock external calls: @mock.patch(\"requests.get\")"⟩]
    else [])
  ++ (if isSubstr "open(".toList line_stripped
        && !(isSubstr "with ".toList line) then
      [⟨i, "RESOURCE_LEAK", "MEDIUM", original_line,
        "File opened without proper cleanup",
        "Use \"with open()\" context manager"⟩]
    else [])
  ++ (if (["db.commit(", "connection.execute(", "cursor.execute("].map
          String.toList).any (fun p => isSubstr p line_stripped)
        && isSubstr "test".toList (pyLower file_path) then
      [⟨i, "DATABASE_DEPENDENCY", "MEDIUM", original_line,
        "Database operation in test - may cause race conditions",
        "Use database transactions or test fixtures"⟩]
    else [])

/-- testbot.detect_flaky_patterns: split the content on newlines and run
the rule table over each line with its 1-based index. -/
def detect_flaky_patterns (file_content file_path : List Char) :
    List FlakyIssue :=
  (enumFrom1 1 (pySplitOn '\n' file_content)).flatMap
    (fun p => lineIssues file_path p.1 p.2)

end Testbot

/-! Helper lemmas about the string and pattern primitives. -/

theorem startsWithStr_iff (n h : List Char) :
    startsWithStr n h = true ↔ n <+: h := by
  induction n generalizing h with
  | nil => simp [startsWithStr, List.nil_prefix]
  | cons a as ih =>
      cases h with
      | nil => simp [startsWithStr]
      | cons b bs =>
          simp only [startsWithStr, Bool.and_eq_true, decide_eq_true_eq, ih bs,
            List.cons_prefix_cons]

theorem isSubstr_iff (n h : List Char) : isSubstr n h = true ↔ n <:+: h := by
  induction h with
  | nil =>
      cases n <;> simp [isSubstr, List.isEmpty]
  | cons c rest ih =>
      simp only [isSubstr, Bool.or_eq_true, startsWithStr_iff, ih,
        List.infix_cons_iff]

theorem infix_dropWhile_of_no_space (p l : List Char) (hne : p ≠ [])
    (hns : ∀ c ∈ p, pyIsSpace c = false) (h : p <:+: l) :
    p <:+: l.dropWhile pyIsSpace := by
  induction l with
  | nil =>
      simp only [List.infix_nil] at h
      exact absurd h hne
  | cons c rest ih =>
      by_cases hc : pyIsSpace c = true
      · rw [List.dropWhile_cons_of_pos hc]
        rcases List.infix_cons_iff.mp h with hpre | hinf
        · exfalso
          cases p with
          | nil => exact hne rfl
          | cons a as =>
              have hac : a = c := (List.cons_prefix_cons.mp hpre).1
              have hfa := hns a (List.mem_cons_self a as)
              rw [hac] at hfa
              rw [hfa] at hc
              exact Bool.false_ne_true hc
        · exact ih hinf
      · rw [List.dropWhile_cons_of_neg (by simpa using hc)]
        exact h

theorem infix_pyStrip_of_no_space (p l : List Char) (hne : p ≠ [])
    (hns : ∀ c ∈ p, pyIsSpace c = false) (h : p <:+: l) :
    p <:+: pyStrip l := by
  unfold pyStrip
  have h1 : p <:+: l.dropWhile pyIsSpace :=
    infix_dropWhile_of_no_space p l hne hns h
  have h2 : p.reverse <:+: (l.dropWhile pyIsSpace).reverse :=
    List.reverse_infix.mpr h1
  have h3 : p.reverse <:+: ((l.dropWhile pyIsSpace).reverse).dropWhile pyIsSpace :=
    infix_dropWhile_of_no_space p.reverse _ (by simpa using hne)
      (fun c hc => hns c (by simpa using hc)) h2
  rw [← List.reverse_infix, List.reverse_reverse]
  exact h3

theorem infix_pyLower_of_fixed (p l : List Char)
    (hfix : p.map pyToLower = p) (h : p <:+: l) : p <:+: pyLower l := by
  have := List.IsInfix.map pyToLower h
  rwa [hfix] at this

theorem reFindAux_mem (toks : List PatTok) :
    ∀ fuel text i s caps, (s, caps) ∈ reFindAux toks fuel text i →
      i ≤ s ∧ (matchToks toks (text.drop (s - i))).isSome := by
  intro fuel
  induction fuel with
  | zero => intro text i s caps hmem; simp [reFindAux] at hmem
  | succ fuel ih =>
      intro text i s caps hmem
      cases text with
      | nil => simp [reFindAux] at hmem
      | cons c rest =>
          rw [reFindAux] at hmem
          cases hm : matchToks toks (c :: rest) with
          | some r =>
              rw [hm] at hmem
              rcases List.mem_cons.mp hmem with heq | htail
              · have h1 : s = i := congrArg Prod.fst heq
                subst h1
                refine ⟨Nat.le_refl _, ?_⟩
                simp [hm]
              · obtain ⟨hle, hsome⟩ := ih _ _ _ _ htail
                refine ⟨by omega, ?_⟩
                rw [List.drop_drop] at hsome
                have heq2 : max r.1 1 + (s - (i + max r.1 1)) = s - i := by omega
                rwa [heq2] at hsome
          | none =>
              rw [hm] at hmem
              obtain ⟨hle, hsome⟩ := ih _ _ _ _ hmem
              refine ⟨by omega, ?_⟩
              obtain ⟨k, hk⟩ : ∃ k, s - i = k + 1 := ⟨s - i - 1, by omega⟩
              rw [hk, List.drop_succ_cons]
              have hk2 : s - (i + 1) = k := by omega
              rwa [hk2] at hsome

theorem reFind_mem (toks : List PatTok) (text : List Char) (s : Nat)
    (caps : List (List Char)) (h : (s, caps) ∈ reFind toks text) :
    (matchToks toks (text.drop s)).isSome := by
  have := reFindAux_mem toks text.length text 0 s caps h
  simpa using this.2

/-! Helper lemmas about the reliability aggregator. -/

theorem mem_analyze_flakiness (results : Session) (name : List Char)
    (e : FlakyEntry) (h : (name, e) ∈ analyze_flakiness results) :
    ∃ runs : List RunRecord, runs ≠ [] ∧ (name, runs) ∈ results
      ∧ e = mkFlakyEntry runs := by
  rw [analyze_flakiness, List.mem_flatMap] at h
  obtain ⟨a, ha, hmem⟩ := h
  by_cases hemp : a.2.isEmpty
  · rw [if_pos hemp] at hmem
    simp at hmem
  · rw [if_neg hemp] at hmem
    rcases List.mem_singleton.mp hmem with heq
    have h1 : name = a.1 := congrArg Prod.fst heq
    have h2 : e = mkFlakyEntry a.2 := congrArg Prod.snd heq
    refine ⟨a.2, by simpa [List.isEmpty_iff] using hemp, ?_, h2⟩
    rw [h1]
    exact ha

theorem mkFlakyEntry_rate_bounds (runs : List RunRecord) (hne : runs ≠ []) :
    0 ≤ (mkFlakyEntry runs).success_rate ∧ (mkFlakyEntry runs).success_rate ≤ 1 := by
  have hlen : 0 < runs.length := List.length_pos.mpr hne
  have hcount : (runs.map RunRecord.success).count true ≤ runs.length := by
    simpa using List.count_le_length true (runs.map RunRecord.success)
  have hlen' : (0 : ℚ) < ((runs.map RunRecord.success).length : ℚ) := by
    simp only [List.length_map]
    exact_mod_cast hlen
  simp only [mkFlakyEntry]
  constructor
  · apply div_nonneg <;> positivity
  · rw [div_le_one hlen']
    simp only [List.length_map]
    exact_mod_cast hcount

theorem mkFlakyEntry_level_eq (runs : List RunRecord) :
    (mkFlakyEntry runs).flakiness_level =
      (if (mkFlakyEntry runs).success_rate < 1 ∧ 0 < (mkFlakyEntry runs).success_rate
        then "FLAKY"
        else if (mkFlakyEntry runs).success_rate = 0 then "FAILING" else "STABLE")
      ++ (if (mkFlakyEntry runs).duration_variance >
            (mkFlakyEntry runs).avg_duration * (1 / 2)
          then "_PERFORMANCE" else "") := by
  rfl

theorem tier_string_iff (rate : ℚ) (suffix : String)
    (h0 : 0 ≤ rate) (h1 : rate ≤ 1)
    (hs : suffix = "" ∨ suffix = "_PERFORMANCE") :
    (((if rate < 1 ∧ 0 < rate then "FLAKY"
        else if rate = 0 then "FAILING" else "STABLE") ++ suffix = "STABLE"
      ∨ (if rate < 1 ∧ 0 < rate then "FLAKY"
          else if rate = 0 then "FAILING" else "STABLE") ++ suffix
          = "STABLE_PERFORMANCE") ↔ rate = 1)
    ∧ (((if rate < 1 ∧ 0 < rate then "FLAKY"
          else if rate = 0 then "FAILING" else "STABLE") ++ suffix = "FAILING"
        ∨ (if rate < 1 ∧ 0 < rate then "FLAKY"
            else if rate = 0 then "FAILING" else "STABLE") ++ suffix
            = "FAILING_PERFORMANCE") ↔ rate = 0)
    ∧ (((if rate < 1 ∧ 0 < rate then "FLAKY"
          else if rate = 0 then "FAILING" else "STABLE") ++ suffix = "FLAKY"
        ∨ (if rate < 1 ∧ 0 < rate then "FLAKY"
            else if rate = 0 then "FAILING" else "STABLE") ++ suffix
            = "FLAKY_PERFORMANCE") ↔ 0 < rate ∧ rate < 1) := by
  by_cases hf : rate < 1 ∧ 0 < rate
  · rw [if_pos hf]
    rcases hs with hs | hs <;> subst hs
    · exact ⟨iff_of_false (by decide) (fun h => absurd h (ne_of_lt hf.1)),
        iff_of_false (by decide) (fun h => absurd hf.2 (by rw [h]; exact lt_irrefl 0)),
        iff_of_true (Or.inl (by decide)) ⟨hf.2, hf.1⟩⟩
    · exact ⟨iff_of_false (by decide) (fun h => absurd h (ne_of_lt hf.1)),
        iff_of_false (by decide) (fun h => absurd hf.2 (by rw [h]; exact lt_irrefl 0)),
        iff_of_true (Or.inr (by decide)) ⟨hf.2, hf.1⟩⟩
  · rw [if_neg hf]
    by_cases hz : rate = 0
    · rw [if_pos hz]
      rcases hs with hs | hs <;> subst hs
      · exact ⟨iff_of_false (by decide)
            (fun h => by rw [h] at hz; exact absurd hz (by norm_num)),
          iff_of_true (Or.inl (by decide)) hz,
          iff_of_false (by decide)
            (fun h => by rw [hz] at h; exact lt_irrefl 0 h.1)⟩
      · exact ⟨iff_of_false (by decide)
            (fun h => by rw [h] at hz; exact absurd hz (by norm_num)),
          iff_of_true (Or.inr (by decide)) hz,
          iff_of_false (by decide)
            (fun h => by rw [hz] at h; exact lt_irrefl 0 h.1)⟩
    · rw [if_neg hz]
      have hpos : 0 < rate := lt_of_le_of_ne h0 (Ne.symm hz)
      have hone : rate = 1 := by
        by_contra hne1
        exact hf ⟨lt_of_le_of_ne h1 hne1, hpos⟩
      rcases hs with hs | hs <;> subst hs
      · exact ⟨iff_of_true (Or.inl (by decide)) hone,
          iff_of_false (by decide)
            (fun h => by rw [h] at hpos; exact lt_irrefl 0 hpos),
          iff_of_false (by decide)
            (fun h => by rw [hone] at h; exact lt_irrefl 1 h.2)⟩
      · exact ⟨iff_of_true (Or.inr (by decide)) hone,
          iff_of_false (by decide)
            (fun h => by rw [h] at hpos; exact lt_irrefl 0 hpos),
          iff_of_false (by decide)
            (fun h => by rw [hone] at h; exact lt_irrefl 1 h.2)⟩

theorem mkFlakyEntry_counts (runs : List RunRecord) :
    (mkFlakyEntry runs).successful_runs + (mkFlakyEntry runs).failed_runs
      = (mkFlakyEntry runs).total_runs
    ∧ (mkFlakyEntry runs).total_runs = runs.length := by
  have hc : (runs.map RunRecord.success).count true
      ≤ (runs.map RunRecord.success).length :=
    List.count_le_length ..
  rw [List.length_map] at hc
  constructor
  · show (runs.map RunRecord.success).count true
        + ((runs.map RunRecord.success).length
            - (runs.map RunRecord.success).count true)
        = runs.length
    rw [List.length_map]
    omega
  · rfl

theorem analyze_flakiness_cons (p : List Char × List RunRecord) (rest : Session) :
    analyze_flakiness (p :: rest)
      = (if p.2.isEmpty then [] else [(p.1, mkFlakyEntry p.2)])
        ++ analyze_flakiness rest := by
  simp [analyze_flakiness]

theorem lookupA_analyze_not_mem (results : Session) (name : List Char)
    (h : ¬ name ∈ results.map Prod.fst) :
    lookupA name (analyze_flakiness results) = none := by
  induction results with
  | nil => rfl
  | cons p rest ih =>
      simp only [List.map_cons, List.mem_cons] at h
      push_neg at h
      rw [analyze_flakiness_cons]
      by_cases hemp : p.2.isEmpty
      · rw [if_pos hemp, List.nil_append]
        exact ih h.2
      · rw [if_neg hemp, List.singleton_append]
        have hk : p.1 ≠ name := fun hkk => h.1 hkk.symm
        simp only [lookupA, if_neg hk]
        exact ih h.2

theorem lookupA_analyze (results : Session) (name : List Char)
    (hnd : (results.map Prod.fst).Nodup) :
    (∀ runs, lookupA name results = some runs →
      lookupA name (analyze_flakiness results)
        = if runs.isEmpty then none else some (mkFlakyEntry runs))
    ∧ (lookupA name results = none →
      lookupA name (analyze_flakiness results) = none) := by
  induction results with
  | nil => exact ⟨fun runs h => by simp [lookupA] at h, fun _ => rfl⟩
  | cons p rest ih =>
      rw [List.map_cons, List.nodup_cons] at hnd
      have ih' := ih hnd.2
      constructor
      · intro runs hl
        rw [analyze_flakiness_cons]
        by_cases hk : p.1 = name
        · have hruns : p.2 = runs := by
            have := hl
            simp only [lookupA, if_pos hk] at this
            exact Option.some.inj this
          subst hruns
          by_cases hemp : p.2.isEmpty
          · rw [if_pos hemp, List.nil_append, if_pos hemp]
            exact lookupA_analyze_not_mem rest name (hk ▸ hnd.1)
          · rw [if_neg hemp, List.singleton_append, if_neg hemp]
            simp only [lookupA, if_pos hk]
        · have hl' : lookupA name rest = some runs := by
            simpa only [lookupA, if_neg hk] using hl
          by_cases hemp : p.2.isEmpty
          · rw [if_pos hemp, List.nil_append]
            exact ih'.1 runs hl'
          · rw [if_neg hemp, List.singleton_append]
            simp only [lookupA, if_neg hk]
            exact ih'.1 runs hl'
      · intro hl
        rw [analyze_flakiness_cons]
        by_cases hk : p.1 = name
        · exfalso
          simp only [lookupA, if_pos hk] at hl
          exact Option.noConfusion hl
        · have hl' : lookupA name rest = none := by
            simpa only [lookupA, if_neg hk] using hl
          by_cases hemp : p.2.isEmpty
          · rw [if_pos hemp, List.nil_append]
            exact ih'.2 hl'
          · rw [if_neg hemp, List.singleton_append]
            simp only [lookupA, if_neg hk]
            exact ih'.2 hl'

/-- Suffix test on character lists, used to express that the
_PERFORMANCE modifier is attached to a flakiness level. -/
def endsWithStr (suf s : List Char) : Bool := startsWithStr suf.reverse s.reverse

/-- C1: for every test name in the verdict mapping produced by
analyze_flakiness, the tier is STABLE exactly when the success rate equals
1.0, FAILING exactly when it equals 0.0, and FLAKY exactly when it lies
strictly between 0.0 and 1.0; the tier of an entry is its flakiness_level
string up to the optional _PERFORMANCE suffix. -/
theorem C1_tier_iff_success_rate (results : Session) (name : List Char)
    (e : FlakyEntry) (h : (name, e) ∈ analyze_flakiness results) :
    ((e.flakiness_level = "STABLE" ∨ e.flakiness_level = "STABLE_PERFORMANCE")
        ↔ e.success_rate = 1)
    ∧ ((e.flakiness_level = "FAILING" ∨ e.flakiness_level = "FAILING_PERFORMANCE")
        ↔ e.success_rate = 0)
    ∧ ((e.flakiness_level = "FLAKY" ∨ e.flakiness_level = "FLAKY_PERFORMANCE")
        ↔ (0 < e.success_rate ∧ e.success_rate < 1)) := by
  obtain ⟨runs, hne, hmem, he⟩ := mem_analyze_flakiness results name e h
  subst he
  obtain ⟨h0, h1⟩ := mkFlakyEntry_rate_bounds runs hne
  rw [mkFlakyEntry_level_eq]
  refine tier_string_iff _ _ h0 h1 ?_
  split
  · exact Or.inr rfl
  · exact Or.inl rfl

/-- Witness for C1 at a concrete mixed 1-success-1-failure session. -/
theorem C1_tier_iff_success_rate_witness :
    ("t".toList, mkFlakyEntry [⟨true, 1, 1, [], []⟩, ⟨false, 1, 2, [], []⟩])
        ∈ analyze_flakiness
            [("t".toList, [⟨true, 1, 1, [], []⟩, ⟨false, 1, 2, [], []⟩])]
    ∧ (((mkFlakyEntry [⟨true, 1, 1, [], []⟩,
            ⟨false, 1, 2, [], []⟩]).flakiness_level = "FLAKY"
        ∨ (mkFlakyEntry [⟨true, 1, 1, [], []⟩,
            ⟨false, 1, 2, [], []⟩]).flakiness_level = "FLAKY_PERFORMANCE")
      ↔ (0 < (mkFlakyEntry [⟨true, 1, 1, [], []⟩,
              ⟨false, 1, 2, [], []⟩]).success_rate
          ∧ (mkFlakyEntry [⟨true, 1, 1, [], []⟩,
              ⟨false, 1, 2, [], []⟩]).success_rate < 1)) :=
  ⟨by simp [analyze_flakiness],
    (C1_tier_iff_success_rate
      [("t".toList, [⟨true, 1, 1, [], []⟩, ⟨false, 1, 2, [], []⟩])]
      "t".toList
      (mkFlakyEntry [⟨true, 1, 1, [], []⟩, ⟨false, 1, 2, [], []⟩])
      (by simp [analyze_flakiness])).2.2⟩

/-- C2: every verdict satisfies successful_runs + failed_runs = total_runs
with total_runs the number of records observed for that name, the success
rate lies in the unit interval, a name with an empty record list or no
record list never appears in the verdict mapping, and the empty session
yields the empty mapping. -/
theorem C2_verdict_invariants (results : Session)
    (hnd : (results.map Prod.fst).Nodup) :
    (∀ name e, lookupA name (analyze_flakiness results) = some e →
        e.successful_runs + e.failed_runs = e.total_runs
        ∧ 0 ≤ e.success_rate ∧ e.success_rate ≤ 1
        ∧ ∃ runs, lookupA name results = some runs ∧ runs ≠ []
            ∧ e.total_runs = runs.length)
    ∧ (∀ name, lookupA name results = some [] →
        lookupA name (analyze_flakiness results) = none)
    ∧ (∀ name, lookupA name results = none →
        lookupA name (analyze_flakiness results) = none)
    ∧ analyze_flakiness [] = [] := by
  refine ⟨?_, ?_, ?_, rfl⟩
  · intro name e h
    cases hres : lookupA name results with
    | none =>
        rw [(lookupA_analyze results name hnd).2 hres] at h
        exact absurd h (by simp)
    | some runs =>
        have heq := (lookupA_analyze results name hnd).1 runs hres
        rw [heq] at h
        by_cases hemp : runs.isEmpty
        · rw [if_pos hemp] at h
          simp at h
        · rw [if_neg hemp] at h
          have he : e = mkFlakyEntry runs := (Option.some.inj h).symm
          subst he
          have hne : runs ≠ [] := by simpa [List.isEmpty_iff] using hemp
          obtain ⟨hcnt, htot⟩ := mkFlakyEntry_counts runs
          obtain ⟨h0, h1⟩ := mkFlakyEntry_rate_bounds runs hne
          exact ⟨hcnt, h0, h1, runs, rfl, hne, htot⟩
  · intro name h
    rw [(lookupA_analyze results name hnd).1 [] h]
    simp
  · intro name h
    exact (lookupA_analyze results name hnd).2 h

/-- Witness for C2: a session with one observed test and one test whose
record list is empty; the empty-record test is absent from the verdicts. -/
theorem C2_verdict_invariants_witness :
    ((([("a".toList, [(⟨true, 1, 1, [], []⟩ : RunRecord)]),
        ("b".toList, [])] : Session).map Prod.fst).Nodup)
    ∧ lookupA "b".toList
        (analyze_flakiness
          [("a".toList, [(⟨true, 1, 1, [], []⟩ : RunRecord)]),
            ("b".toList, [])]) = none :=
  ⟨by decide,
    (C2_verdict_invariants _ (by decide)).2.1 "b".toList (by decide)⟩

/-- C3: the _PERFORMANCE modifier is attached to a verdict exactly when its
duration variance exceeds half its average duration, whatever the tier. -/
theorem C3_performance_iff_variance (results : Session) (name : List Char)
    (e : FlakyEntry) (h : (name, e) ∈ analyze_flakiness results) :
    endsWithStr "_PERFORMANCE".toList e.flakiness_level.toList = true
      ↔ e.duration_variance > e.avg_duration * (1 / 2) := by
  obtain ⟨runs, hne, hmem, he⟩ := mem_analyze_flakiness results name e h
  subst he
  rw [mkFlakyEntry_level_eq]
  by_cases hperf : (mkFlakyEntry runs).duration_variance
      > (mkFlakyEntry runs).avg_duration * (1 / 2)
  · rw [if_pos hperf]
    refine iff_of_true ?_ hperf
    by_cases hf : (mkFlakyEntry runs).success_rate < 1
        ∧ 0 < (mkFlakyEntry runs).success_rate
    · rw [if_pos hf]; decide
    · rw [if_neg hf]
      by_cases hz : (mkFlakyEntry runs).success_rate = 0
      · rw [if_pos hz]; decide
      · rw [if_neg hz]; decide
  · rw [if_neg hperf]
    refine iff_of_false ?_ hperf
    by_cases hf : (mkFlakyEntry runs).success_rate < 1
        ∧ 0 < (mkFlakyEntry runs).success_rate
    · rw [if_pos hf]; decide
    · rw [if_neg hf]
      by_cases hz : (mkFlakyEntry runs).success_rate = 0
      · rw [if_pos hz]; decide
      · rw [if_neg hz]; decide

/-- The five all-success runs with durations 1, 1, 1, 5, 1 from the spec's
concrete performance-variance example. -/
def c3runs : List RunRecord :=
  [⟨true, 1, 1, [], []⟩, ⟨true, 1, 2, [], []⟩, ⟨true, 1, 3, [], []⟩,
    ⟨true, 5, 4, [], []⟩, ⟨true, 1, 5, [], []⟩]

/-- Witness for C3: the duration series 1, 1, 1, 5, 1 has population
variance 64/25 = 2.56, which exceeds 9/10 = avg_duration * 0.5, so the
modifier is attached. -/
theorem C3_performance_iff_variance_witness :
    ("t".toList, mkFlakyEntry c3runs) ∈ analyze_flakiness [("t".toList, c3runs)]
    ∧ (mkFlakyEntry c3runs).duration_variance = 64 / 25
    ∧ (mkFlakyEntry c3runs).avg_duration * (1 / 2) = 9 / 10
    ∧ endsWithStr "_PERFORMANCE".toList
        (mkFlakyEntry c3runs).flakiness_level.toList = true :=
  ⟨by simp [analyze_flakiness, c3runs],
    by simp [mkFlakyEntry, calculate_variance, c3runs]; norm_num,
    by simp [mkFlakyEntry, c3runs]; norm_num,
    (C3_performance_iff_variance [("t".toList, c3runs)] "t".toList
      (mkFlakyEntry c3runs) (by simp [analyze_flakiness, c3runs])).mpr
      (by simp [mkFlakyEntry, calculate_variance, c3runs]; norm_num)⟩

/-- C6: the variance helper computes the population variance (mean of
squared deviations, dividing by the sample count) on every nonempty series,
and returns 0.0 on a single-sample or empty series without error. -/
theorem C6_variance_is_population_variance :
    (∀ values : List ℚ, values ≠ [] →
        calculate_variance values = population_variance values)
    ∧ (∀ x : ℚ, calculate_variance [x] = 0)
    ∧ calculate_variance ([] : List ℚ) = 0 := by
  refine ⟨?_, fun x => rfl, rfl⟩
  intro values hne
  match values with
  | [x] =>
      simp [calculate_variance, population_variance]
  | x :: y :: rest =>
      have hlen : ¬ ((x :: y :: rest).length < 2) := by
        simp [List.length_cons]
      simp only [calculate_variance, population_variance, if_neg hlen]

/-- Witness for C6 at the spec's concrete 5-sample series. -/
theorem C6_variance_witness :
    ([(1 : ℚ), 1, 1, 5, 1] ≠ [])
    ∧ calculate_variance [1, 1, 1, 5, 1] = population_variance [1, 1, 1, 5, 1] :=
  ⟨by decide, C6_variance_is_population_variance.1 _ (by decide)⟩

/-- C4 counterexample: the extractor output is a list, not a set — on an
stdout mentioning the same test identifier twice it returns the identifier
twice, so duplicates are not collapsed. -/
theorem C4_counterexample :
    parse_test_output "a.py::t a.py::t".toList []
        = ["a::t".toList, "a::t".toList]
    ∧ ¬ (parse_test_output "a.py::t a.py::t".toList []).Nodup := by
  constructor
  · decide
  · decide

/-- C4 (amended): the extractor result is a list of identifiers that may
contain duplicates; it is never empty, and when zero identifiers are
recoverable from stdout it is exactly the single synthetic whole-invocation
identifier.  The embedding is a total function, so malformed or truncated
output cannot raise. -/
theorem C4_amended_extractor_fallback (stdout stderr : List Char) :
    parse_test_output stdout stderr ≠ []
    ∧ (rawTestNames stdout = [] →
        parse_test_output stdout stderr = ["all_tests".toList]) := by
  constructor
  · show (if (rawTestNames stdout).isEmpty then ["all_tests".toList]
      else rawTestNames stdout) ≠ []
    by_cases hemp : (rawTestNames stdout).isEmpty
    · rw [if_pos hemp]
      simp
    · rw [if_neg hemp]
      simpa [List.isEmpty_iff] using hemp
  · intro hraw
    show (if (rawTestNames stdout).isEmpty then ["all_tests".toList]
      else rawTestNames stdout) = ["all_tests".toList]
    rw [hraw]
    rfl

/-- Witness for the amended C4 at empty runner output. -/
theorem C4_amended_extractor_fallback_witness :
    rawTestNames [] = []
    ∧ parse_test_output [] [] = ["all_tests".toList] :=
  ⟨by decide, (C4_amended_extractor_fallback [] []).2 (by decide)⟩

/-- C5 counterexample: a session whose single run raises a non-timeout
invocation error (for example a missing executable) records nothing — the
results dictionary stays empty, so that run is not recorded as a failed
run, contrary to the claim. -/
theorem C5_counterexample :
    run_test_multiple_times
      [RunOutcome.errored "No such file or directory: python".toList] = [] :=
  rfl

/-- C5 (amended): on timeout the executor appends one failed record with
duration 300 (the timeout ceiling) and the sentinel timed-out stderr to
every test name already observed, and continues; on any other invocation
error it records nothing for that run and continues to the next run. -/
theorem C5_amended_error_handling (results : Session) (idx : Nat)
    (msg : List Char) (name : List Char) (recs : List RunRecord)
    (h : lookupA name results = some recs) :
    stepRun results idx (RunOutcome.errored msg) = results
    ∧ lookupA name (stepRun results idx RunOutcome.timedOut)
        = some (recs ++ [timeoutRecord idx]) := by
  constructor
  · rfl
  · induction results with
    | nil => simp [lookupA] at h
    | cons p rest ih =>
        simp only [stepRun, List.map_cons]
        by_cases hk : p.1 = name
        · simp only [lookupA, if_pos hk] at h ⊢
          rw [Option.some.inj h]
        · simp only [lookupA, if_neg hk] at h ⊢
          exact ih h

/-- Witness for the amended C5 at a one-test session. -/
theorem C5_amended_error_handling_witness :
    lookupA "t".toList [("t".toList, [(⟨true, 1, 1, [], []⟩ : RunRecord)])]
        = some [⟨true, 1, 1, [], []⟩]
    ∧ stepRun [("t".toList, [(⟨true, 1, 1, [], []⟩ : RunRecord)])] 2
        (RunOutcome.errored "boom".toList)
        = [("t".toList, [⟨true, 1, 1, [], []⟩])]
    ∧ lookupA "t".toList
        (stepRun [("t".toList, [(⟨true, 1, 1, [], []⟩ : RunRecord)])] 2
          RunOutcome.timedOut)
        = some ([⟨true, 1, 1, [], []⟩] ++ [timeoutRecord 2]) :=
  ⟨by decide,
    (C5_amended_error_handling [("t".toList, [⟨true, 1, 1, [], []⟩])] 2
      "boom".toList "t".toList [⟨true, 1, 1, [], []⟩] (by decide)).1,
    (C5_amended_error_handling [("t".toList, [⟨true, 1, 1, [], []⟩])] 2
      "boom".toList "t".toList [⟨true, 1, 1, [], []⟩] (by decide)).2⟩

/-- C8: the weak-random check flags only in a security context — for any
file text in which no security-context keyword occurs (case-insensitively),
check_weak_random returns false regardless of how much random usage the
text contains. -/
theorem C8_weak_random_needs_context (content : List Char)
    (h : ∀ k ∈ Testbot.security_contexts, ¬ k <:+: pyLower content) :
    Testbot.check_weak_random content = false := by
  have hctx : Testbot.has_security_context content = false := by
    simp only [Testbot.has_security_context, List.any_eq_false]
    intro k hk
    have hni : ¬ isSubstrCI k content = true := fun hh =>
      h k hk ((isSubstr_iff _ _).mp hh)
    exact hni
  show (if Testbot.has_security_context content = false then (false : Bool)
    else Testbot.weak_random_patterns.any (fun pat => reSearch pat content))
      = false
  rw [if_pos hctx]

/-- Witness for C8: a file full of weak-random usage but with no
security keyword is not flagged. -/
theorem C8_weak_random_needs_context_witness :
    (∀ k ∈ Testbot.security_contexts,
        ¬ k <:+: pyLower "x = random.random()\ny = rand()".toList)
    ∧ Testbot.weak_random_patterns.any
        (fun pat => reSearch pat "x = random.random()\ny = rand()".toList) = true
    ∧ Testbot.check_weak_random "x = random.random()\ny = rand()".toList
        = false :=
  ⟨by decide, by decide, C8_weak_random_needs_context _ (by decide)⟩

/-- C9: the hardcoded-secrets exclusion is file-wide — if any exclusion
marker occurs anywhere in the file (case-insensitively), the check returns
false even when the same text contains a secret assignment. -/
theorem C9_secret_exclusion_is_file_wide (content : List Char)
    (h : ∃ m ∈ Testbot.exclude_patterns, m <:+: pyLower content) :
    Testbot.check_hardcoded_secrets content = false := by
  have hctx : Testbot.isTestContext content = true := by
    obtain ⟨m, hm, hinf⟩ := h
    simp only [Testbot.isTestContext, List.any_eq_true]
    exact ⟨m, hm, (isSubstr_iff _ _).mpr hinf⟩
  simp [Testbot.check_hardcoded_secrets, hctx]

/-- Witness for C9: a real-looking password assignment is not reported
because the word example occurs later in the file. -/
theorem C9_secret_exclusion_witness :
    (∃ m ∈ Testbot.exclude_patterns,
        m <:+: pyLower "password = \"hunter22secret\" # example".toList)
    ∧ Testbot.secret_patterns.any
        (fun pat =>
          !(reFind pat "password = \"hunter22secret\" # example".toList).isEmpty)
        = true
    ∧ Testbot.check_hardcoded_secrets
        "password = \"hunter22secret\" # example".toList = false :=
  ⟨by decide, by decide, C9_secret_exclusion_is_file_wide _ (by decide)⟩

/-- C7: every finding of the static pattern scanner carries the 1-based
line number computed as the count of newline characters before the match
start plus one, together with a real match of one of the configured
patterns at that start; the concrete scan of a file whose second line is
time.sleep(0.1) yields exactly one TIME_DEPENDENT finding at line 2; an
empty file scans to the empty sequence; an unreadable file yields the empty
sequence instead of raising. -/
theorem C7_scanner_line_numbers :
    (∀ content m, m ∈ scanFlakyContent content →
      ∃ cat ∈ flaky_categories, ∃ pat ∈ cat.pats,
        m.ptype = cat.ctype ∧ m.pattern = pat.source
        ∧ ∃ s, (matchToks pat.toks (content.drop s)).isSome
            ∧ m.line = (content.take s).count '\n' + 1)
    ∧ scanFlakyContent "x = 1\ntime.sleep(0.1)\ny = 2\n".toList
        = [⟨"TIME_DEPENDENT", "time\\.sleep\\(".toList, 2,
            "Test depends on timing which can be unreliable"⟩]
    ∧ scanFlakyContent [] = []
    ∧ detect_flaky_patterns none = [] := by
  refine ⟨?_, by decide, by decide, rfl⟩
  intro content m h
  simp only [scanFlakyContent, List.mem_flatMap, List.mem_map] at h
  obtain ⟨cat, hcat, pat, hpat, mm, hmm, heq⟩ := h
  subst heq
  refine ⟨cat, hcat, pat, hpat, rfl, rfl, mm.1, ?_, rfl⟩
  exact reFind_mem pat.toks content mm.1 mm.2 (by simpa using hmm)

/-- Witness for C7 at the concrete time.sleep file. -/
theorem C7_scanner_line_numbers_witness :
    ((⟨"TIME_DEPENDENT", "time\\.sleep\\(".toList, 2,
        "Test depends on timing which can be unreliable"⟩ : PatternIssue)
      ∈ scanFlakyContent "x = 1\ntime.sleep(0.1)\ny = 2\n".toList)
    ∧ ∃ cat ∈ flaky_categories, ∃ pat ∈ cat.pats,
        ("TIME_DEPENDENT" : String) = cat.ctype
        ∧ "time\\.sleep\\(".toList = pat.source
        ∧ ∃ s, (matchToks pat.toks
              ("x = 1\ntime.sleep(0.1)\ny = 2\n".toList.drop s)).isSome
            ∧ 2 = ("x = 1\ntime.sleep(0.1)\ny = 2\n".toList.take s).count '\n' + 1 :=
  ⟨by decide,
    C7_scanner_line_numbers.1 "x = 1\ntime.sleep(0.1)\ny = 2\n".toList
      ⟨"TIME_DEPENDENT", "time\\.sleep\\(".toList, 2,
        "Test depends on timing which can be unreliable"⟩ (by decide)⟩

/-! Helper lemmas for the line-based testbot scanner. -/

theorem mem_ite_singleton {α : Type} {c : Prop} [Decidable c]
    {m a : α} (h : m ∈ if c then [a] else ([] : List α)) : c ∧ m = a := by
  split at h
  · exact ⟨by assumption, List.mem_singleton.mp h⟩
  · exact absurd h (List.not_mem_nil m)

theorem mem_enumFrom1 (xs : List (List Char)) :
    ∀ n j l, ((j, l) ∈ Testbot.enumFrom1 n xs)
      ↔ (n ≤ j ∧ xs[j - n]? = some l) := by
  induction xs with
  | nil =>
      intro n j l
      simp [Testbot.enumFrom1]
  | cons x rest ih =>
      intro n j l
      simp only [Testbot.enumFrom1, List.mem_cons, ih]
      constructor
      · rintro (heq | ⟨hle, hget⟩)
        · have hj : j = n := congrArg Prod.fst heq
          have hl : l = x := congrArg Prod.snd heq
          subst hj
          subst hl
          refine ⟨Nat.le_refl _, ?_⟩
          rw [Nat.sub_self, List.getElem?_cons_zero]
        · refine ⟨by omega, ?_⟩
          have hsub : j - n = (j - (n + 1)) + 1 := by omega
          rw [hsub, List.getElem?_cons_succ]
          exact hget
      · rintro ⟨hle, hget⟩
        by_cases hj : j = n
        · subst hj
          rw [Nat.sub_self, List.getElem?_cons_zero] at hget
          exact Or.inl (by rw [Option.some.inj hget])
        · right
          refine ⟨by omega, ?_⟩
          have hsub : j - n = (j - (n + 1)) + 1 := by omega
          rw [hsub, List.getElem?_cons_succ] at hget
          exact hget

theorem mem_lineIssues_resource_leak (path : List Char) (j : Nat)
    (l : List Char) (m : Testbot.FlakyIssue)
    (hm : m ∈ Testbot.lineIssues path j l)
    (hpat : m.pattern = "RESOURCE_LEAK") :
    isSubstr "open(".toList (pyLower (pyStrip l)) = true
    ∧ isSubstr "with ".toList l = false
    ∧ m = ⟨j, "RESOURCE_LEAK", "MEDIUM", pyStrip l,
        "File opened without proper cleanup",
        "Use \"with open()\" context manager"⟩ := by
  simp only [Testbot.lineIssues, List.mem_append] at hm
  rcases hm with ((((h1 | h2) | h3) | h4) | h5) | h6
  · obtain ⟨_, heq⟩ := mem_ite_singleton h1
    rw [heq] at hpat
    simp at hpat
  · obtain ⟨_, heq⟩ := mem_ite_singleton h2
    rw [heq] at hpat
    simp at hpat
  · obtain ⟨_, heq⟩ := mem_ite_singleton h3
    rw [heq] at hpat
    simp at hpat
  · obtain ⟨_, heq⟩ := mem_ite_singleton h4
    rw [heq] at hpat
    simp at hpat
  · obtain ⟨hc, heq⟩ := mem_ite_singleton h5
    simp only [Bool.and_eq_true, Bool.not_eq_true'] at hc
    exact ⟨hc.1, hc.2, heq⟩
  · obtain ⟨_, heq⟩ := mem_ite_singleton h6
    rw [heq] at hpat
    simp at hpat

theorem resource_leak_mem_lineIssues (path : List Char) (j : Nat)
    (l : List Char)
    (h1 : isSubstr "open(".toList (pyLower (pyStrip l)) = true)
    (h2 : isSubstr "with ".toList l = false) :
    (⟨j, "RESOURCE_LEAK", "MEDIUM", pyStrip l,
        "File opened without proper cleanup",
        "Use \"with open()\" context manager"⟩ : Testbot.FlakyIssue)
      ∈ Testbot.lineIssues path j l := by
  have hcond : (isSubstr "open(".toList (pyLower (pyStrip l))
      && !(isSubstr "with ".toList l)) = true := by
    rw [h1, h2]
    rfl
  have h5 : (⟨j, "RESOURCE_LEAK", "MEDIUM", pyStrip l,
      "File opened without proper cleanup",
      "Use \"with open()\" context manager"⟩ : Testbot.FlakyIssue)
      ∈ (if (isSubstr "open(".toList (pyLower (pyStrip l))
            && !(isSubstr "with ".toList l)) = true
        then [(⟨j, "RESOURCE_LEAK", "MEDIUM", pyStrip l,
            "File opened without proper cleanup",
            "Use \"with open()\" context manager"⟩ : Testbot.FlakyIssue)]
        else []) := by
    rw [if_pos hcond]
    exact List.mem_singleton_self _
  show _ ∈ Testbot.lineIssues path j l
  simp only [Testbot.lineIssues]
  exact List.mem_append_left _ (List.mem_append_right _ h5)

/-- C10: in the line-based scanner of testbot.py, a line whose text
contains open( is flagged as a MEDIUM RESOURCE_LEAK finding exactly when
the original line does not contain the substring with-space; in particular
a line wrapping open in a with statement is never flagged by this rule. -/
theorem C10_resource_leak_iff_no_with (content path : List Char) (i : Nat)
    (line : List Char)
    (hline : (pySplitOn '\n' content)[i]? = some line)
    (hopen : "open(".toList <:+: line) :
    ((⟨i + 1, "RESOURCE_LEAK", "MEDIUM", pyStrip line,
        "File opened without proper cleanup",
        "Use \"with open()\" context manager"⟩ : Testbot.FlakyIssue)
        ∈ Testbot.detect_flaky_patterns content path)
      ↔ ¬ ("with ".toList <:+: line) := by
  have hopenStrip : isSubstr "open(".toList (pyLower (pyStrip line)) = true := by
    apply (isSubstr_iff _ _).mpr
    apply infix_pyLower_of_fixed _ _ (by decide)
    exact infix_pyStrip_of_no_space _ _ (by decide) (by decide) hopen
  constructor
  · intro hmem
    simp only [Testbot.detect_flaky_patterns, List.mem_flatMap] at hmem
    obtain ⟨pr, hpr, hmem2⟩ := hmem
    obtain ⟨hc1, hc2, heq⟩ :=
      mem_lineIssues_resource_leak path pr.1 pr.2 _ hmem2 rfl
    have hj : i + 1 = pr.1 := congrArg Testbot.FlakyIssue.line heq
    obtain ⟨hge, hget⟩ := (mem_enumFrom1 (pySplitOn '\n' content) 1 pr.1 pr.2).mp
      (by simpa using hpr)
    rw [← hj] at hget
    have hidx : i + 1 - 1 = i := by omega
    rw [hidx, hline] at hget
    have hl : pr.2 = line := (Option.some.inj hget).symm
    rw [hl] at hc2
    intro hinf
    have hw := (isSubstr_iff _ _).mpr hinf
    rw [hc2] at hw
    exact Bool.noConfusion hw
  · intro hnw
    have h2 : isSubstr "with ".toList line = false :=
      Bool.eq_false_iff.mpr (fun hh => hnw ((isSubstr_iff _ _).mp hh))
    simp only [Testbot.detect_flaky_patterns, List.mem_flatMap]
    refine ⟨(i + 1, line), ?_, ?_⟩
    · refine (mem_enumFrom1 _ 1 (i + 1) line).mpr ⟨by omega, ?_⟩
      simpa using hline
    · exact resource_leak_mem_lineIssues path (i + 1) line hopenStrip h2

/-- The two-line file of the C10 witness: a bare open call, then a
with-wrapped one. -/
def c10content : List Char := "f = open(path)\nwith open(q) as g:\n".toList

/-- Witness for C10: line 1 of the concrete file is flagged. -/
theorem C10_resource_leak_iff_no_with_witness :
    (pySplitOn '\n' c10content)[0]? = some "f = open(path)".toList
    ∧ ("open(".toList <:+: "f = open(path)".toList)
    ∧ ¬ ("with ".toList <:+: "f = open(path)".toList)
    ∧ ((⟨0 + 1, "RESOURCE_LEAK", "MEDIUM",
          pyStrip "f = open(path)".toList,
          "File opened without proper cleanup",
          "Use \"with open()\" context manager"⟩ : Testbot.FlakyIssue)
        ∈ Testbot.detect_flaky_patterns c10content "t.py".toList) :=
  ⟨by decide, by decide, by decide,
    (C10_resource_leak_iff_no_with c10content "t.py".toList 0
      "f = open(path)".toList (by decide) (by decide)).mpr (by decide)⟩

end FlakyDetector
